import Mathlib

/-!
Verification development for the `api_exam` CSV-to-JSON converter
(`src/main.go`).  The program watches a directory for `.csv` files; for
each file it builds a header map from the first successfully parsed CSV
record, validates every subsequent record against a fixed schema, writes
the valid records as indented JSON, writes an error CSV when any row
failed, and removes the input file.

The shallow embedding below follows `main.go` closely:

* `Name`, `Record` mirror the Go output structs.
* `atoi` models `strconv.Atoi` (sign handling and all-digit check; the
  program only calls it on strings of exactly 8 bytes, so the int64
  range error of `strconv.Atoi` is unreachable and is not modelled).
* `isPhone` models the anchored regexp `^\d{3}-\d{3}-\d{4}$`.
* `hdrLookup`/`hdrSize` model the Go map built by
  `for i, val := range record { header[val] = i }`: a later duplicate
  column name overwrites an earlier one, and the map's size is the
  number of distinct names.
* `validateRow` is the per-row validation cascade of `processFile`
  (lines 183-256).  Go indexing `record[id]` panics when out of bounds;
  that is modelled by the explicit `RowOutcome.oob` outcome.
* `processGo`/`processLines` model the read loop (lines 165-257),
  including the `encoding/csv` reader's own `ErrFieldCount` behaviour:
  with the default `FieldsPerRecord = 0`, the first `Read` — an
  errored one included, via the partial record it still builds — fixes
  the expected field count, and later successfully parsed records of a
  different length are returned as reader errors.  A line is modelled
  by the outcome of one `r.Read()` call: either a structural parse
  error with its partial record's field count (`RawLine.bad`) or a
  list of fields (`RawLine.fields`).
* `marshalRecords` models `json.MarshalIndent(records, "", "  ")`,
  including the fact that the never-appended-to `records` slice is nil
  and marshals to `null`.
* `runProcessFile` models the file-level control flow of `processFile`
  (extension gate, open, JSON write, error-CSV write via
  `logrus.Fatal` on failure, remove), parameterised by an environment
  giving the outcome of each I/O operation.
-/

namespace ApiExam

/-- Column-name constant `INTERNAL_ID` from `main.go`. -/
def ID : String := "INTERNAL_ID"

/-- Column-name constant `FIRST_NAME`. -/
def FName : String := "FIRST_NAME"

/-- Column-name constant `MIDDLE_NAME`. -/
def MName : String := "MIDDLE_NAME"

/-- Column-name constant `LAST_NAME`. -/
def LName : String := "LAST_NAME"

/-- Column-name constant `PHONE_NUM`. -/
def Phone : String := "PHONE_NUM"

/-- The `Name` struct of the output schema. -/
structure Name where
  first : String
  middle : String
  last : String
deriving DecidableEq

/-- The `Record` struct of the output schema. -/
structure Record where
  internalID : Int
  name : Name
  phone : String
deriving DecidableEq

/-- Numeric value of a list of decimal digit characters. -/
def digitsVal (ds : List Char) : Nat :=
  ds.foldl (fun a c => 10 * a + (c.toNat - 48)) 0

/-- Model of Go `strconv.Atoi`: optional leading sign, then at least one
decimal digit and nothing else.  The int64 range error is not modelled;
the program only parses strings of at most 8 bytes. -/
def atoi (s : String) : Option Int :=
  match s.data with
  | [] => none
  | c :: rest =>
    let ds := if c = '-' ∨ c = '+' then rest else c :: rest
    if ds = [] then none
    else if ds.all (fun d => d.isDigit) then
      if c = '-' then some (-(digitsVal ds : Int)) else some ((digitsVal ds : Int))
    else none

/-- Model of the anchored Go regexp `^\d{3}-\d{3}-\d{4}$` used for the
phone field. -/
def isPhone (s : String) : Bool :=
  match s.data with
  | [d1, d2, d3, h1, d4, d5, d6, h2, d7, d8, d9, d10] =>
    d1.isDigit && d2.isDigit && d3.isDigit && h1 == '-' &&
    d4.isDigit && d5.isDigit && d6.isDigit && h2 == '-' &&
    d7.isDigit && d8.isDigit && d9.isDigit && d10.isDigit
  | _ => false

/-- Lookup in the header map built by
`for i, val := range record { header[val] = i }`: the index of the LAST
occurrence of `col` among the header fields (a later duplicate
overwrites an earlier one), if present. -/
def hdrLookup : List String → String → Option Nat
  | [], _ => none
  | f :: fs, col =>
    match hdrLookup fs col with
    | some i => some (i + 1)
    | none => if f = col then some 0 else none

/-- Size of the Go header map: the number of DISTINCT column names of
the header row (duplicates collapse onto one key). -/
def hdrSize (hdr : List String) : Nat :=
  hdr.eraseDups.length

/-- One per-row validation error of `processFile`, with the data that
appears in its message. -/
inductive VErr where
  /-- A structural CSV parse error returned by `csv.Reader.Read`
  (e.g. a quoting error); the message is the reader's. -/
  | readErr (msg : String)
  /-- The csv reader's `ErrFieldCount`: a parsed record whose field
  count differs from the count fixed by the first record. -/
  | readCount (got expected : Nat)
  /-- `err: number of fields: %d does not match header: %d` -/
  | fieldCount (got expected : Nat)
  /-- `err: missing: %q error field in header` -/
  | missing (col : String)
  /-- `err: id field: %q is not an 8 digit integer` -/
  | idLen (v : String)
  /-- `err: id field: %q either empty, or an invalid integer, ...` -/
  | idParse (v : String)
  /-- `err: id: %d should not be negative` -/
  | idNeg (n : Int)
  /-- `err: first name field: %q should not exceed 15 characters` -/
  | fnLong (v : String)
  /-- `err: first name field should not be empty` -/
  | fnEmpty
  /-- `err: middle name field: %q should not exceed 15 characters` -/
  | mnLong (v : String)
  /-- `err: last name field: %q should not exceed 15 characters` -/
  | lnLong (v : String)
  /-- `err: last name field should not be empty` -/
  | lnEmpty
  /-- `err: phone field: %q either empty, or an invalid phone number` -/
  | phoneBad (v : String)
deriving DecidableEq

/-- Outcome of validating one data row: a record, one row error, or a
Go slice-index panic (`record[id]` with `id` out of range). -/
inductive RowOutcome where
  | ok (r : Record)
  | err (e : VErr)
  | oob
deriving DecidableEq

/-- The per-row validation cascade of `processFile` (`main.go`
lines 183-256), in source order: field count against the header map's
size; internal id presence, 8-byte length, `Atoi` parse, sign; first
name presence, byte length ≤ 15, non-empty; middle name presence,
length ≤ 15; last name presence, length ≤ 15, non-empty; phone
presence, regexp match.  Field accesses use `List.get?`; an
out-of-range index is the Go panic, `RowOutcome.oob`. -/
def validateRow (hdr row : List String) : RowOutcome :=
  if row.length ≠ hdrSize hdr then .err (.fieldCount row.length (hdrSize hdr))
  else match hdrLookup hdr ID with
  | none => .err (.missing ID)
  | some i =>
    match row.get? i with
    | none => .oob
    | some idv =>
      if idv.utf8ByteSize ≠ 8 then .err (.idLen idv)
      else match atoi idv with
      | none => .err (.idParse idv)
      | some n =>
        if n < 0 then .err (.idNeg n)
        else match hdrLookup hdr FName with
        | none => .err (.missing FName)
        | some j =>
          match row.get? j with
          | none => .oob
          | some fn =>
            if 15 < fn.utf8ByteSize then .err (.fnLong fn)
            else if fn = "" then .err (.fnEmpty)
            else match hdrLookup hdr MName with
            | none => .err (.missing MName)
            | some k =>
              match row.get? k with
              | none => .oob
              | some mn =>
                if 15 < mn.utf8ByteSize then .err (.mnLong mn)
                else match hdrLookup hdr LName with
                | none => .err (.missing LName)
                | some l =>
                  match row.get? l with
                  | none => .oob
                  | some lnv =>
                    if 15 < lnv.utf8ByteSize then .err (.lnLong lnv)
                    else if lnv = "" then .err (.lnEmpty)
                    else match hdrLookup hdr Phone with
                    | none => .err (.missing Phone)
                    | some p =>
                      match row.get? p with
                      | none => .oob
                      | some ph =>
                        if ¬ isPhone ph then .err (.phoneBad ph)
                        else .ok ⟨n, ⟨fn, mn, lnv⟩, ph⟩

/-- The header row used by the repository's schema, in its natural
order. -/
def stdHeader : List String := [ID, FName, MName, LName, Phone]

/-- A data row for `stdHeader` with the given id field and fixed valid
name and phone fields. -/
def mkRow (idv : String) : List String :=
  [idv, "Jane", "Q", "Doe", "555-123-4567"]

/-! ## Spec-side Row Validator (section 4.2 of the spec)

The spec describes the Row Validator as an ordered list of fifteen
independent rules, applied in a fixed sequence with the first failure
winning.  The definitions below follow the spec's words; the
refinement theorem for claim C1 compares them with `validateRow`,
which was translated from the source. -/

/-- The raw string of column `col` of a row, resolved through the
Header Map (empty when out of range; rows handed to the validator by
the File Converter always have the header's length, see
`processGo_spec`). -/
def fieldAt (hdr row : List String) (col : String) : String :=
  match hdrLookup hdr col with
  | some i => row.getD i ""
  | none => ""

/-- Rule 1: the row's field count must equal the Header Map's size. -/
def checkCount (hdr row : List String) : Option VErr :=
  if row.length ≠ hdrSize hdr then some (.fieldCount row.length (hdrSize hdr)) else none

/-- Rules 2/6/9/11/14: the column must be present in the Header Map. -/
def checkPresent (hdr : List String) (col : String) : Option VErr :=
  if (hdrLookup hdr col).isNone then some (.missing col) else none

/-- Rule 3: the raw internal-id string must be exactly 8 bytes. -/
def checkIdLen (hdr row : List String) : Option VErr :=
  if (fieldAt hdr row ID).utf8ByteSize ≠ 8 then some (.idLen (fieldAt hdr row ID)) else none

/-- Rule 4: the internal-id string must parse as a base-10 integer. -/
def checkIdParse (hdr row : List String) : Option VErr :=
  match atoi (fieldAt hdr row ID) with
  | none => some (.idParse (fieldAt hdr row ID))
  | some _ => none

/-- Rule 5: the parsed internal id must be non-negative. -/
def checkIdSign (hdr row : List String) : Option VErr :=
  match atoi (fieldAt hdr row ID) with
  | some n => if n < 0 then some (.idNeg n) else none
  | none => none

/-- Rules 7/10/12: the field must be at most 15 bytes. -/
def checkLen15 (hdr row : List String) (col : String) (mk : String → VErr) : Option VErr :=
  if 15 < (fieldAt hdr row col).utf8ByteSize then some (mk (fieldAt hdr row col)) else none

/-- Rules 8/13: the field must be non-empty. -/
def checkNonempty (hdr row : List String) (col : String) (e : VErr) : Option VErr :=
  if fieldAt hdr row col = "" then some e else none

/-- Rule 15: the phone field must match `^\d{3}-\d{3}-\d{4}$`. -/
def checkPhoneFmt (hdr row : List String) : Option VErr :=
  if ¬ isPhone (fieldAt hdr row Phone) then some (.phoneBad (fieldAt hdr row Phone)) else none

/-- The fifteen rules of spec section 4.2, in the spec's fixed order. -/
def specChecks (hdr row : List String) : List (Option VErr) :=
  [ checkCount hdr row,
    checkPresent hdr ID, checkIdLen hdr row, checkIdParse hdr row, checkIdSign hdr row,
    checkPresent hdr FName, checkLen15 hdr row FName VErr.fnLong,
    checkNonempty hdr row FName VErr.fnEmpty,
    checkPresent hdr MName, checkLen15 hdr row MName VErr.mnLong,
    checkPresent hdr LName, checkLen15 hdr row LName VErr.lnLong,
    checkNonempty hdr row LName VErr.lnEmpty,
    checkPresent hdr Phone, checkPhoneFmt hdr row ]

/-- First failure wins: the first `some` in the rule outcomes. -/
def firstFail : List (Option VErr) → Option VErr
  | [] => none
  | some e :: _ => some e
  | none :: rest => firstFail rest

/-- The Record produced from a row that passed every rule: the id is
the integer parsed from the verbatim source string, the other four
fields are the verbatim source strings (no trimming). -/
def buildRecord (hdr row : List String) : Record :=
  ⟨(atoi (fieldAt hdr row ID)).getD 0,
   ⟨fieldAt hdr row FName, fieldAt hdr row MName, fieldAt hdr row LName⟩,
   fieldAt hdr row Phone⟩

/-- Spec-side Row Validator: apply the rules of section 4.2 in order;
the first failing rule yields the row's single error, and a row passing
every rule yields the Record built verbatim from the row. -/
def specValidateRow (hdr row : List String) : Except VErr Record :=
  match firstFail (specChecks hdr row) with
  | some e => .error e
  | none => .ok (buildRecord hdr row)

/-- Injection of the spec validator's result into `RowOutcome`. -/
def rowOfExcept : Except VErr Record → RowOutcome
  | .ok r => .ok r
  | .error e => .err e

/-! ## The File Converter's read loop (`processFile`, lines 161-257)

A `RawLine` is the outcome of one `csv.Reader.Read()` call before the
reader's field-count enforcement: either a structural parse error
(carrying the field count of the partial record the reader still
built) or a list of fields.  `processGo` then models the loop of
`processFile` together with the reader's `ErrFieldCount` logic (Go
`encoding/csv`, here Go 1.13, with the default `FieldsPerRecord = 0`):
at the end of every `readRecord` call — errored reads included — a
still-zero `FieldsPerRecord` is set to the length of the record just
built, and once it is positive, a successfully parsed record of a
different length is returned as an `ErrFieldCount` error.  An errored
first read can therefore fix the expected count from its partial
record and prevent any later well-formed line from being consumed as
the header. -/

/-- Outcome of one `csv.Reader.Read()` call, before field-count
enforcement.  `bad` carries the reader's message and the number of
fields of the partial record the reader built before failing (Go's
`readRecord` returns that partial `dst` and uses `len(dst)` to set a
still-zero `FieldsPerRecord`). -/
inductive RawLine where
  | bad (msg : String) (partialFields : Nat)
  | fields (fs : List String)
deriving DecidableEq

/-- Result of the read loop: the accumulated records and row errors,
or a Go panic from an out-of-range slice index. -/
inductive ProcResult where
  | ok (recs : List Record) (errs : List (Nat × VErr))
  | oob (line : Nat)
deriving DecidableEq

/-- The loop of `processFile`: `ln` is the 1-based count of `Read()`
calls, `fpr` the reader's `FieldsPerRecord` state (0 = not yet fixed;
an errored read's partial record also fixes it, per Go's
`readRecord`), `hdr` the header row once consumed, `recs` and `errs`
the accumulators. -/
def processGo (ln fpr : Nat) (hdr : Option (List String)) (recs : List Record)
    (errs : List (Nat × VErr)) : List RawLine → ProcResult
  | [] => .ok recs errs
  | .bad m pf :: rest =>
    processGo (ln + 1) (if 0 < fpr then fpr else pf) hdr recs
      (errs ++ [(ln, .readErr m)]) rest
  | .fields fs :: rest =>
    if 0 < fpr then
      if fs.length ≠ fpr then
        processGo (ln + 1) fpr hdr recs (errs ++ [(ln, .readCount fs.length fpr)]) rest
      else
        match hdr with
        | none => processGo (ln + 1) fpr (some fs) recs errs rest
        | some h =>
          match validateRow h fs with
          | .ok r => processGo (ln + 1) fpr hdr (recs ++ [r]) errs rest
          | .err e => processGo (ln + 1) fpr hdr recs (errs ++ [(ln, e)]) rest
          | .oob => .oob ln
    else
      match hdr with
      | none => processGo (ln + 1) fs.length (some fs) recs errs rest
      | some h =>
        match validateRow h fs with
        | .ok r => processGo (ln + 1) fs.length hdr (recs ++ [r]) errs rest
        | .err e => processGo (ln + 1) fs.length hdr recs (errs ++ [(ln, e)]) rest
        | .oob => .oob ln

/-- Processing a whole file's stream of read outcomes, starting at
line 1 with no header and the reader's field count not yet fixed. -/
def processLines (lines : List RawLine) : ProcResult :=
  processGo 1 0 none [] [] lines

/-! ## JSON output (`json.MarshalIndent(records, "", "  ")`) -/

/-- Lowercase hex digit, as used by Go's JSON `\u00xx` escapes. -/
def hexDigit (n : Nat) : Char :=
  if n < 10 then Char.ofNat (48 + n) else Char.ofNat (87 + n)

/-- Two lowercase hex digits of a byte value. -/
def hexByte (n : Nat) : String :=
  String.mk [hexDigit (n / 16), hexDigit (n % 16)]

/-- Go `encoding/json` string escaping (HTML escaping on, the
default): quote, backslash, newline, carriage return, tab, the HTML
characters as `\u00xx`, other control characters as `\u00xx`, and the
line separators U+2028/U+2029. -/
def jsonEscapeChar (c : Char) : String :=
  if c = '"' then "\\\""
  else if c = '\\' then "\\\\"
  else if c = '\n' then "\\n"
  else if c = '\r' then "\\r"
  else if c = '\t' then "\\t"
  else if c = '<' then "\\u003c"
  else if c = '>' then "\\u003e"
  else if c = '&' then "\\u0026"
  else if c.toNat < 32 then "\\u00" ++ hexByte c.toNat
  else if c.toNat = 8232 then "\\u2028"
  else if c.toNat = 8233 then "\\u2029"
  else String.singleton c

/-- Escape a whole string for a JSON string literal. -/
def jsonEscape (s : String) : String :=
  s.data.foldl (fun acc c => acc ++ jsonEscapeChar c) ""

/-- A JSON string literal. -/
def jsonQuote (s : String) : String :=
  "\"" ++ jsonEscape s ++ "\""

/-- The `name` object of one record, indented as `MarshalIndent` nests
it inside an array element; the `middle` key carries `omitempty` and is
omitted when the middle name is empty. -/
def nameJSON (n : Name) : String :=
  "\x7b\n      \"first\": " ++ jsonQuote n.first ++ ",\n" ++
  (if n.middle = "" then "" else "      \"middle\": " ++ jsonQuote n.middle ++ ",\n") ++
  "      \"last\": " ++ jsonQuote n.last ++ "\n    \x7d"

/-- One record as a JSON object, indented as an array element of
`MarshalIndent(records, "", "  ")`. -/
def recordJSON (r : Record) : String :=
  "  \x7b\n    \"id\": " ++ toString r.internalID ++ ",\n    \"name\": " ++ nameJSON r.name ++
  ",\n    \"phone\": " ++ jsonQuote r.phone ++ "\n  \x7d"

/-- `json.MarshalIndent(records, "", "  ")`: the `records` slice of
`processFile` is nil until the first append, and Go marshals a nil
slice as `null`, not as `[]`. -/
def marshalRecords : List Record → String
  | [] => "null"
  | rs => "[\n" ++ String.intercalate (",\n") (rs.map recordJSON) ++ "\n]"

/-! ## Error report and file-level control flow -/

/-- Go `%q` quoting of a string (escaping of exotic control characters
is elided; the program's messages only quote field values). -/
def goQuote (s : String) : String :=
  "\"" ++ s.data.foldl (fun acc c =>
    acc ++ (if c = '"' then "\\\""
            else if c = '\\' then "\\\\"
            else if c = '\n' then "\\n"
            else if c = '\t' then "\\t"
            else if c = '\r' then "\\r"
            else String.singleton c)) "" ++ "\""

/-- The message text of each row error, as formatted by `processFile`.
For `readErr` the csv reader's own message is carried through; for
`readCount` the reader's `ErrFieldCount` text is given without the
`record on line %d:` prefix, whose line count is internal to the
reader. -/
def errMsg : VErr → String
  | .readErr m => m
  | .readCount _ _ => "wrong number of fields"
  | .fieldCount got expected =>
    "err: number of fields: " ++ toString got ++ " does not match header: " ++ toString expected
  | .missing col => "err: missing: " ++ goQuote col ++ " error field in header"
  | .idLen v => "err: id field: " ++ goQuote v ++ " is not an 8 digit integer"
  | .idParse v =>
    "err: id field: " ++ goQuote v ++ " either empty, or an invalid integer, " ++
    "strconv.Atoi: parsing " ++ goQuote v ++ ": invalid syntax"
  | .idNeg n => "err: id: " ++ toString n ++ " should not be negative"
  | .fnLong v => "err: first name field: " ++ goQuote v ++ " should not exceed 15 characters"
  | .fnEmpty => "err: first name field should not be empty"
  | .mnLong v => "err: middle name field: " ++ goQuote v ++ " should not exceed 15 characters"
  | .lnLong v => "err: last name field: " ++ goQuote v ++ " should not exceed 15 characters"
  | .lnEmpty => "err: last name field should not be empty"
  | .phoneBad v => "err: phone field: " ++ goQuote v ++ " either empty, or an invalid phone number"

/-- The error CSV written by `processFile` when at least one row error
accumulated (`len(errs) > 1` counting the constant header row): the
`LINE_NUM,ERROR_MSG` header followed by one row per error in insertion
order; `none` when no row error accumulated. -/
def errReport (errs : List (Nat × VErr)) : Option (List (List String)) :=
  if errs.isEmpty then none
  else some (["LINE_NUM", "ERROR_MSG"] :: errs.map (fun p => [toString p.1, errMsg p.2]))

/-- `filepath.Ext`: the suffix of the path starting at the final dot of
its final path element; empty when that element has no dot.  Scans the
reversed character list, accumulating the suffix seen so far. -/
def goExtAux (acc : List Char) : List Char → List Char
  | [] => []
  | c :: rest =>
    if c = '/' then []
    else if c = '.' then '.' :: acc
    else goExtAux (c :: acc) rest

/-- `filepath.Ext(path)`. -/
def goExt (p : String) : String :=
  String.mk (goExtAux [] p.data.reverse)

/-- `filepath.Base` for the file paths the watcher delivers (paths
naming a file, without a trailing separator): everything after the last
separator. -/
def goBaseAux (acc : List Char) : List Char → List Char
  | [] => acc
  | c :: rest => if c = '/' then acc else goBaseAux (c :: acc) rest

/-- `filepath.Base(path)` for file paths without trailing separators. -/
def goBase (p : String) : String :=
  String.mk (goBaseAux [] p.data.reverse)

/-- `strings.ToLower` (ASCII; the extensions compared are ASCII). -/
def goToLower (s : String) : String :=
  String.mk (s.data.map Char.toLower)

/-- `strings.TrimSuffix`. -/
def trimSuffix (s suf : String) : String :=
  if suf.data.isSuffixOf s.data then String.mk (s.data.take (s.data.length - suf.data.length))
  else s

/-- The output JSON file name:
`strings.Join([]string{strings.TrimSuffix(filepath.Base(path), ext), "json"}, ".")`. -/
def jsonName (p : String) : String :=
  trimSuffix (goBase p) (goExt p) ++ ".json"

/-- Outcomes of the I/O operations `processFile` performs, one `some`
message per failing operation.  `processFile` is deterministic given
these outcomes and the file content. -/
structure Env where
  openRes : Option String
  writeJsonRes : Option String
  openErrRes : Option String
  writeErrRes : Option String
  removeRes : Option String
deriving DecidableEq

/-- How one `processFile` call ends: normal return `nil`, an error
returned to the caller (logged there, non-fatal), `logrus.Fatal`
(process exit), or a runtime panic. -/
inductive FOutcome where
  | ok
  | err (msg : String)
  | fatal
  | crash
deriving DecidableEq

/-- Externally visible writes of one `processFile` call: the JSON file
(name and content) if successfully written, the error CSV (name and
rows) if successfully written, and whether the input file was
removed. -/
structure Effects where
  jsonWritten : Option (String × String)
  errWritten : Option (String × List (List String))
  removed : Bool
deriving DecidableEq

/-- No effect: nothing written, nothing removed. -/
def noEffects : Effects := ⟨none, none, false⟩

/-- File-level control flow of `processFile` (lines 137-299): the
case-insensitive `.csv` extension gate; `os.Open`; the read loop; the
JSON write (whose failure is returned to the caller); the error CSV,
written only when a row error accumulated, whose open or write failure
hits `logrus.Fatal()`; and `os.Remove` (whose failure is returned to
the caller). -/
def runProcessFile (env : Env) (path : String) (lines : List RawLine) : Effects × FOutcome :=
  if goToLower (goExt path) = ".csv" then
    match env.openRes with
    | some m => (noEffects, .err m)
    | none =>
      match processLines lines with
      | .oob _ => (noEffects, .crash)
      | .ok recs errs =>
        match env.writeJsonRes with
        | some m => (noEffects, .err m)
        | none =>
          let eff1 : Effects := ⟨some (jsonName path, marshalRecords recs), none, false⟩
          match errReport errs with
          | none =>
            match env.removeRes with
            | some m => (eff1, .err m)
            | none => ({ eff1 with removed := true }, .ok)
          | some tbl =>
            match env.openErrRes with
            | some _ => (eff1, .fatal)
            | none =>
              match env.writeErrRes with
              | some _ => (eff1, .fatal)
              | none =>
                match env.removeRes with
                | some m => ({ eff1 with errWritten := some (goBase path, tbl) }, .err m)
                | none =>
                  ({ eff1 with errWritten := some (goBase path, tbl), removed := true }, .ok)
  else (noEffects, .ok)

/-- The all-success environment. -/
def envOk : Env := ⟨none, none, none, none, none⟩

/-- Claim C1's verbatim-fields property: when validation produces a
Record, its four text fields equal the corresponding source-row strings
verbatim (no trimming) and its id is the integer `strconv.Atoi` parses
from the verbatim source id string. -/
def recMatchesRow (hdr row : List String) : Prop :=
  match validateRow hdr row with
  | .ok r =>
    r.name.first = fieldAt hdr row FName ∧ r.name.middle = fieldAt hdr row MName ∧
    r.name.last = fieldAt hdr row LName ∧ r.phone = fieldAt hdr row Phone ∧
    atoi (fieldAt hdr row ID) = some r.internalID
  | .err _ => True
  | .oob => True

/-- Claim C5 amended, as a single property of every run: failures of
the JSON write or of the source-file delete are surfaced to the caller
as file-level errors (non-fatal), but a failure opening or writing the
error report (reachable whenever at least one row error accumulated)
terminates the process via `logrus.Fatal`. -/
def fileLevelOutcomes (env : Env) (path : String) (lines : List RawLine) : Prop :=
  goToLower (goExt path) = ".csv" → env.openRes = none →
  ((∀ m, env.writeJsonRes = some m → (runProcessFile env path lines).2 = .err m) ∧
   (∀ m, env.writeJsonRes = none → env.openErrRes = none → env.writeErrRes = none →
      env.removeRes = some m → (runProcessFile env path lines).2 = .err m) ∧
   (∀ recs errs, processLines lines = .ok recs errs → errs ≠ [] → env.writeJsonRes = none →
      (env.openErrRes ≠ none ∨ env.writeErrRes ≠ none) →
      (runProcessFile env path lines).2 = .fatal))

/-- Claim C6's conclusion: error line numbers are 1-based, bounded by
the number of `Read()` calls, strictly increasing (insertion order =
row order); when the first line read becomes the header every error
cites line ≥ 2 (the header line counts toward numbering); and the
error report is produced exactly when at least one row error
accumulated, as the `LINE_NUM,ERROR_MSG` header row followed by one
row per error in order. -/
def errsWellFormed (lines : List RawLine) (errs : List (Nat × VErr)) : Prop :=
  errs.Pairwise (fun a b => a.1 < b.1) ∧
  (∀ p ∈ errs, 1 ≤ p.1 ∧ p.1 ≤ lines.length) ∧
  ((∃ fs rest, lines = RawLine.fields fs :: rest) → ∀ p ∈ errs, 2 ≤ p.1) ∧
  errReport errs =
    (if errs.isEmpty then none
     else some (["LINE_NUM", "ERROR_MSG"] :: errs.map (fun p => [toString p.1, errMsg p.2])))

/-- 1-based position of the line consumed as the header, tracking the
reader's `FieldsPerRecord` state exactly as `processGo` does: the
header is the first successfully parsed line whose field count matches
the expected count — which an errored earlier read may already have
fixed from its partial record — so there may be no header at all. -/
def headerPosGo (fpr : Nat) : List RawLine → Option Nat
  | [] => none
  | .bad _ pf :: rest =>
    (headerPosGo (if 0 < fpr then fpr else pf) rest).map (fun n => n + 1)
  | .fields fs :: rest =>
    if 0 < fpr then
      if fs.length ≠ fpr then (headerPosGo fpr rest).map (fun n => n + 1)
      else some 1
    else some 1

/-- 1-based position of the line consumed as the header, from the
reader's initial state; `none` when no line is ever consumed as the
header. -/
def headerPos (lines : List RawLine) : Option Nat :=
  headerPosGo 0 lines

/-- Number of lines read after the header line. -/
def linesAfterHeader (lines : List RawLine) : Nat :=
  lines.length - (headerPos lines).getD lines.length

example : validateRow stdHeader (mkRow ("12345678")) =
    .ok ⟨12345678, ⟨"Jane", "Q", "Doe"⟩, "555-123-4567"⟩ := by decide

example : validateRow stdHeader (mkRow ("1234567")) = .err (.idLen ("1234567")) := by
  decide

example : marshalRecords [] = "null" := by decide

example : goExt ("input/people.csv") = ".csv" := by decide

example : jsonName ("input/people.csv") = "people.json" := by decide

example : goToLower (goExt ("a/b.TXT")) = ".txt" := by decide

/- An errored first read whose partial record has one field fixes the
reader's expected count at 1 (Go 1.13 `readRecord` sets a still-zero
`FieldsPerRecord` from the partial `dst`), so the well-formed header
line and data line are both rejected with `ErrFieldCount` and no
header is ever installed: every line read yields an error. -/
example : processLines [RawLine.bad ("parse error") 1, RawLine.fields stdHeader,
      RawLine.fields (mkRow ("12345678"))] =
    .ok [] [(1, .readErr ("parse error")), (2, .readCount 5 1), (3, .readCount 5 1)] := by
  decide

example : headerPos [RawLine.bad ("parse error") 1, RawLine.fields stdHeader,
      RawLine.fields (mkRow ("12345678"))] = none := by
  decide

/-- A header-map index always points inside the header row. -/
theorem hdrLookup_lt (hdr : List String) (col : String) :
    ∀ i, hdrLookup hdr col = some i → i < hdr.length := by
  induction hdr with
  | nil => intro i h; simp [hdrLookup] at h
  | cons f fs ih =>
    intro i h
    simp only [hdrLookup] at h
    cases hfs : hdrLookup fs col with
    | some j =>
      rw [hfs] at h
      cases h
      have := ih j hfs
      simp only [List.length_cons]
      omega
    | none =>
      rw [hfs] at h
      by_cases hf : f = col
      · rw [if_pos hf] at h
        cases h
        simp
      · rw [if_neg hf] at h
        cases h

/-- In-bounds access: when the row is as long as the header row, the
`List.get?` access of `validateRow` finds exactly the `fieldAt` value
used by the spec validator. -/
theorem get?_fieldAt (hdr row : List String) (hlen : row.length = hdr.length)
    (col : String) (i : Nat) (h : hdrLookup hdr col = some i) :
    row[i]? = some (fieldAt hdr row col) := by
  have hlt : i < row.length := by
    rw [hlen]; exact hdrLookup_lt hdr col i h
  simp only [fieldAt, h]
  rw [List.getD_eq_getElem?_getD, ← List.get?_eq_getElem?, List.get?_eq_get hlt]
  rfl

/-- `validateRow` refines the spec's ordered-rule validator whenever
the row has the header row's field count (which the csv reader
guarantees for every row handed to the validator). -/
theorem validateRow_eq_spec (hdr row : List String) (hlen : row.length = hdr.length) :
    validateRow hdr row = rowOfExcept (specValidateRow hdr row) := by
  by_cases h1 : row.length ≠ hdrSize hdr
  · simp [validateRow, specValidateRow, specChecks, firstFail, checkCount, h1, rowOfExcept]
  · cases hID : hdrLookup hdr ID with
    | none =>
      simp [validateRow, specValidateRow, specChecks, firstFail, checkCount, checkPresent,
        h1, hID, rowOfExcept]
    | some i =>
      have hacci := get?_fieldAt hdr row hlen ID i hID
      by_cases h3 : (fieldAt hdr row ID).utf8ByteSize ≠ 8
      · simp [validateRow, specValidateRow, specChecks, firstFail, checkCount, checkPresent,
          checkIdLen, h1, hID, hacci, h3, rowOfExcept]
      · cases hAt : atoi (fieldAt hdr row ID) with
        | none =>
          simp [validateRow, specValidateRow, specChecks, firstFail, checkCount, checkPresent,
            checkIdLen, checkIdParse, h1, hID, hacci, h3, hAt, rowOfExcept]
        | some n =>
          by_cases h5 : n < 0
          · simp [validateRow, specValidateRow, specChecks, firstFail, checkCount, checkPresent,
              checkIdLen, checkIdParse, checkIdSign, h1, hID, hacci, h3, hAt, h5, rowOfExcept]
          · cases hFN : hdrLookup hdr FName with
            | none =>
              simp [validateRow, specValidateRow, specChecks, firstFail, checkCount,
                checkPresent, checkIdLen, checkIdParse, checkIdSign, h1, hID, hacci, h3,
                hAt, h5, hFN, rowOfExcept]
            | some j =>
              have haccj := get?_fieldAt hdr row hlen FName j hFN
              by_cases h7 : 15 < (fieldAt hdr row FName).utf8ByteSize
              · simp [validateRow, specValidateRow, specChecks, firstFail, checkCount,
                  checkPresent, checkIdLen, checkIdParse, checkIdSign, checkLen15, h1, hID,
                  hacci, h3, hAt, h5, hFN, haccj, h7, rowOfExcept]
              · by_cases h8 : fieldAt hdr row FName = ""
                · simp [validateRow, specValidateRow, specChecks, firstFail, checkCount,
                    checkPresent, checkIdLen, checkIdParse, checkIdSign, checkLen15,
                    checkNonempty, h1, hID, hacci, h3, hAt, h5, hFN, haccj, h7, h8,
                    rowOfExcept]
                  decide
                · cases hMN : hdrLookup hdr MName with
                  | none =>
                    simp [validateRow, specValidateRow, specChecks, firstFail, checkCount,
                      checkPresent, checkIdLen, checkIdParse, checkIdSign, checkLen15,
                      checkNonempty, h1, hID, hacci, h3, hAt, h5, hFN, haccj, h7, h8, hMN,
                      rowOfExcept]
                  | some k =>
                    have hacck := get?_fieldAt hdr row hlen MName k hMN
                    by_cases h10 : 15 < (fieldAt hdr row MName).utf8ByteSize
                    · simp [validateRow, specValidateRow, specChecks, firstFail, checkCount,
                        checkPresent, checkIdLen, checkIdParse, checkIdSign, checkLen15,
                        checkNonempty, h1, hID, hacci, h3, hAt, h5, hFN, haccj, h7, h8, hMN,
                        hacck, h10, rowOfExcept]
                    · cases hLN : hdrLookup hdr LName with
                      | none =>
                        simp [validateRow, specValidateRow, specChecks, firstFail,
                          checkCount, checkPresent, checkIdLen, checkIdParse, checkIdSign,
                          checkLen15, checkNonempty, h1, hID, hacci, h3, hAt, h5, hFN,
                          haccj, h7, h8, hMN, hacck, h10, hLN, rowOfExcept]
                      | some l =>
                        have haccl := get?_fieldAt hdr row hlen LName l hLN
                        by_cases h12 : 15 < (fieldAt hdr row LName).utf8ByteSize
                        · simp [validateRow, specValidateRow, specChecks, firstFail,
                            checkCount, checkPresent, checkIdLen, checkIdParse, checkIdSign,
                            checkLen15, checkNonempty, h1, hID, hacci, h3, hAt, h5, hFN,
                            haccj, h7, h8, hMN, hacck, h10, hLN, haccl, h12, rowOfExcept]
                        · by_cases h13 : fieldAt hdr row LName = ""
                          · simp [validateRow, specValidateRow, specChecks, firstFail,
                              checkCount, checkPresent, checkIdLen, checkIdParse,
                              checkIdSign, checkLen15, checkNonempty, h1, hID, hacci, h3,
                              hAt, h5, hFN, haccj, h7, h8, hMN, hacck, h10, hLN, haccl,
                              h12, h13, rowOfExcept]
                            decide
                          · cases hPH : hdrLookup hdr Phone with
                            | none =>
                              simp [validateRow, specValidateRow, specChecks, firstFail,
                                checkCount, checkPresent, checkIdLen, checkIdParse,
                                checkIdSign, checkLen15, checkNonempty, h1, hID, hacci, h3,
                                hAt, h5, hFN, haccj, h7, h8, hMN, hacck, h10, hLN, haccl,
                                h12, h13, hPH, rowOfExcept]
                            | some p =>
                              have haccp := get?_fieldAt hdr row hlen Phone p hPH
                              by_cases h15 : isPhone (fieldAt hdr row Phone)
                              · simp [validateRow, specValidateRow, specChecks, firstFail,
                                  checkCount, checkPresent, checkIdLen, checkIdParse,
                                  checkIdSign, checkLen15, checkNonempty, checkPhoneFmt,
                                  buildRecord, h1, hID, hacci, h3, hAt, h5, hFN, haccj, h7,
                                  h8, hMN, hacck, h10, hLN, haccl, h12, h13, hPH, haccp,
                                  h15, rowOfExcept]
                              · simp [validateRow, specValidateRow, specChecks, firstFail,
                                  checkCount, checkPresent, checkIdLen, checkIdParse,
                                  checkIdSign, checkLen15, checkNonempty, checkPhoneFmt,
                                  h1, hID, hacci, h3, hAt, h5, hFN, haccj, h7, h8, hMN,
                                  hacck, h10, hLN, haccl, h12, h13, hPH, haccp, h15,
                                  rowOfExcept]

/-- A header of no columns never produces a record or a panic: the
count check or the missing-`INTERNAL_ID` check fails first. -/
theorem validateRow_nil (row : List String) : ∃ e, validateRow [] row = .err e := by
  by_cases h : row.length ≠ hdrSize []
  · refine ⟨.fieldCount row.length (hdrSize []), ?_⟩
    simp [validateRow, h]
  · refine ⟨.missing ID, ?_⟩
    simp [validateRow, h, hdrLookup]

/-- A row as long as the header row is validated without any
out-of-range access. -/
theorem validateRow_ne_oob (hdr row : List String) (hlen : row.length = hdr.length) :
    validateRow hdr row ≠ .oob := by
  rw [validateRow_eq_spec hdr row hlen]
  cases specValidateRow hdr row <;> simp [rowOfExcept]

/-- `Option.map` of the successor preserves `isSome`; used for the
header-position bookkeeping. -/
theorem isSome_map_succ (o : Option Nat) :
    (o.map (fun n => n + 1)).isSome = o.isSome := by
  cases o <;> rfl

/-- Master invariant of the read loop.  Under the reachable-state
invariant (the reader's expected field count equals the header row's
length once a non-empty header is installed), the loop never panics,
and it returns its accumulators extended by new entries such that:
every new error's line number lies in the window of the remaining
lines; new errors are strictly increasing in line number; and every
remaining line contributes exactly one record or error, except the
line consumed as the header (per `headerPosGo`, an errored read's
partial record may fix the expected count first, in which case no
line is). -/
theorem processGo_spec (rest : List RawLine) :
    ∀ ln fpr hdr recs errs,
    (∀ h, hdr = some h → h ≠ [] → fpr = h.length) →
    ∃ nr ne,
      processGo ln fpr hdr recs errs rest = .ok (recs ++ nr) (errs ++ ne) ∧
      (∀ p ∈ ne, ln ≤ p.1 ∧ p.1 < ln + rest.length) ∧
      ne.Pairwise (fun a b => a.1 < b.1) ∧
      nr.length + ne.length +
        (if hdr = none ∧ (headerPosGo fpr rest).isSome = true then 1 else 0) =
        rest.length := by
  induction rest with
  | nil =>
    intro ln fpr hdr recs errs _
    exact ⟨[], [], by simp [processGo], by simp, by simp, by simp [headerPosGo]⟩
  | cons l rest ih =>
    intro ln fpr hdr recs errs hInv
    cases l with
    | bad m pf =>
      have hInvB : ∀ h, hdr = some h → h ≠ [] → (if 0 < fpr then fpr else pf) = h.length := by
        intro h hh hne2
        have hl := hInv h hh hne2
        have hpos : 0 < fpr := by
          rw [hl]
          cases h with
          | nil => exact absurd rfl hne2
          | cons a t => simp
        rw [if_pos hpos, hl]
      obtain ⟨nr, ne, heq, hbnd, hpw, hcnt⟩ :=
        ih (ln + 1) (if 0 < fpr then fpr else pf) hdr recs
          (errs ++ [(ln, VErr.readErr m)]) hInvB
      refine ⟨nr, (ln, VErr.readErr m) :: ne, ?_, ?_, ?_, ?_⟩
      · simp only [processGo]
        rw [heq]
        simp
      · intro p hp
        rcases List.mem_cons.mp hp with hp | hp
        · subst hp; simp
        · have := hbnd p hp; simp only [List.length_cons]; omega
      · rw [List.pairwise_cons]
        exact ⟨fun b hb => by have := hbnd b hb; omega, hpw⟩
      · simp only [headerPosGo, isSome_map_succ, List.length_cons] at hcnt ⊢
        omega
    | fields fs =>
      by_cases hf : 0 < fpr
      · by_cases hne : fs.length ≠ fpr
        · obtain ⟨nr, ne, heq, hbnd, hpw, hcnt⟩ :=
            ih (ln + 1) fpr hdr recs (errs ++ [(ln, VErr.readCount fs.length fpr)]) hInv
          refine ⟨nr, (ln, VErr.readCount fs.length fpr) :: ne, ?_, ?_, ?_, ?_⟩
          · simp only [processGo, if_pos hf, if_pos hne]
            rw [heq]
            simp
          · intro p hp
            rcases List.mem_cons.mp hp with hp | hp
            · subst hp; simp
            · have := hbnd p hp; simp only [List.length_cons]; omega
          · rw [List.pairwise_cons]
            exact ⟨fun b hb => by have := hbnd b hb; omega, hpw⟩
          · simp only [List.length_cons] at hcnt ⊢
            simp [headerPosGo, hf, hne, isSome_map_succ] at hcnt ⊢
            omega
        · have hEq : fs.length = fpr := not_ne_iff.mp hne
          cases hdr with
          | none =>
            obtain ⟨nr, ne, heq, hbnd, hpw, hcnt⟩ :=
              ih (ln + 1) fpr (some fs) recs errs
                (by intro h hh hne2; cases hh; omega)
            refine ⟨nr, ne, ?_, ?_, hpw, ?_⟩
            · simp only [processGo, if_pos hf, if_neg hne]
              rw [heq]
            · intro p hp
              have := hbnd p hp; simp only [List.length_cons]; omega
            · simp only [List.length_cons] at hcnt ⊢
              simp [headerPosGo, hf, hne] at hcnt ⊢
              omega
          | some h0 =>
            have hnoob : validateRow h0 fs ≠ .oob := by
              by_cases h0nil : h0 = []
              · subst h0nil
                obtain ⟨e, he⟩ := validateRow_nil fs
                simp [he]
              · have hlen : fs.length = h0.length := by
                  have := hInv h0 rfl h0nil
                  omega
                exact validateRow_ne_oob h0 fs hlen
            cases hvr : validateRow h0 fs with
            | oob => exact absurd hvr hnoob
            | ok r =>
              obtain ⟨nr, ne, heq, hbnd, hpw, hcnt⟩ :=
                ih (ln + 1) fpr (some h0) (recs ++ [r]) errs hInv
              refine ⟨r :: nr, ne, ?_, ?_, hpw, ?_⟩
              · simp only [processGo, if_pos hf, if_neg hne, hvr]
                rw [heq]
                simp
              · intro p hp
                have := hbnd p hp; simp only [List.length_cons]; omega
              · simp only [List.length_cons] at hcnt ⊢
                simp at hcnt ⊢
                omega
            | err e =>
              obtain ⟨nr, ne, heq, hbnd, hpw, hcnt⟩ :=
                ih (ln + 1) fpr (some h0) recs (errs ++ [(ln, e)]) hInv
              refine ⟨nr, (ln, e) :: ne, ?_, ?_, ?_, ?_⟩
              · simp only [processGo, if_pos hf, if_neg hne, hvr]
                rw [heq]
                simp
              · intro p hp
                rcases List.mem_cons.mp hp with hp | hp
                · subst hp; simp
                · have := hbnd p hp; simp only [List.length_cons]; omega
              · rw [List.pairwise_cons]
                exact ⟨fun b hb => by have := hbnd b hb; omega, hpw⟩
              · simp only [List.length_cons] at hcnt ⊢
                simp at hcnt ⊢
                omega
      · cases hdr with
        | none =>
          obtain ⟨nr, ne, heq, hbnd, hpw, hcnt⟩ :=
            ih (ln + 1) fs.length (some fs) recs errs
              (by intro h hh hne2; cases hh; rfl)
          refine ⟨nr, ne, ?_, ?_, hpw, ?_⟩
          · simp only [processGo, if_neg hf]
            rw [heq]
          · intro p hp
            have := hbnd p hp; simp only [List.length_cons]; omega
          · simp only [List.length_cons] at hcnt ⊢
            simp [headerPosGo, hf] at hcnt ⊢
            omega
        | some h0 =>
          have hfpr0 : fpr = 0 := by omega
          have h0nil : h0 = [] := by
            by_contra hh
            have := hInv h0 rfl hh
            rw [hfpr0] at this
            cases h0 with
            | nil => exact hh rfl
            | cons a b => simp at this
          subst h0nil
          obtain ⟨e, he⟩ := validateRow_nil fs
          obtain ⟨nr, ne, heq, hbnd, hpw, hcnt⟩ :=
            ih (ln + 1) fs.length (some []) recs (errs ++ [(ln, e)])
              (by intro h hh hne2; cases hh; exact absurd rfl hne2)
          refine ⟨nr, (ln, e) :: ne, ?_, ?_, ?_, ?_⟩
          · simp only [processGo, if_neg hf, he]
            rw [heq]
            simp
          · intro p hp
            rcases List.mem_cons.mp hp with hp | hp
            · subst hp; simp
            · have := hbnd p hp; simp only [List.length_cons]; omega
          · rw [List.pairwise_cons]
            exact ⟨fun b hb => by have := hbnd b hb; omega, hpw⟩
          · simp only [List.length_cons] at hcnt ⊢
            simp at hcnt ⊢
            omega

/-- The read loop from its initial state: it never panics, error line
numbers are 1-based, bounded by the number of lines read and strictly
increasing, and records plus errors account for every line read except
the one consumed as the header (when one exists). -/
theorem processLines_spec (lines : List RawLine) :
    ∃ recs errs,
      processLines lines = .ok recs errs ∧
      (∀ p ∈ errs, 1 ≤ p.1 ∧ p.1 ≤ lines.length) ∧
      errs.Pairwise (fun a b => a.1 < b.1) ∧
      recs.length + errs.length +
        (if (headerPos lines).isSome = true then 1 else 0) = lines.length := by
  obtain ⟨nr, ne, heq, hbnd, hpw, hcnt⟩ :=
    processGo_spec lines 1 0 none [] [] (by intro h hh; cases hh)
  refine ⟨nr, ne, by simpa [processLines] using heq, ?_, hpw, ?_⟩
  · intro p hp
    have := hbnd p hp
    omega
  · simpa [headerPos] using hcnt

/-- The properties of `processLines_spec`, extracted for a given run
result. -/
theorem processLines_ok_inv (lines : List RawLine) (recs : List Record)
    (errs : List (Nat × VErr)) (h : processLines lines = .ok recs errs) :
    (∀ p ∈ errs, 1 ≤ p.1 ∧ p.1 ≤ lines.length) ∧
    errs.Pairwise (fun a b => a.1 < b.1) ∧
    recs.length + errs.length +
      (if (headerPos lines).isSome = true then 1 else 0) = lines.length := by
  obtain ⟨r2, e2, heq, hbnd, hpw, hcnt⟩ := processLines_spec lines
  rw [h] at heq
  injection heq with h1 h2
  subst h1
  subst h2
  exact ⟨hbnd, hpw, hcnt⟩

/-- If the ordered rule list rejects nothing, every rule passed. -/
theorem firstFail_none : ∀ l, firstFail l = none → ∀ x ∈ l, x = none := by
  intro l
  induction l with
  | nil => intro _ x hx; cases hx
  | cons a rest ih =>
    intro h x hx
    cases a with
    | some e => simp [firstFail] at h
    | none =>
      rcases List.mem_cons.mp hx with rfl | hx
      · rfl
      · exact ih (by simpa [firstFail] using h) x hx

/-! ## The claims -/

/-- Claim C1: for every data row (every row the File Converter hands
to the validator has the header row's field count), the validation
rules are applied in the fixed sequence of spec section 4.2, the first
failing rule terminates the row with exactly that one Row Error and no
Record (`validateRow` equals the ordered-rule validator
`specValidateRow`, whose error is the first failure of the rule list),
and a row passing every rule yields exactly one Record whose first,
middle, last and phone fields equal the source-row strings verbatim
(no trimming) and whose id is the integer parsed from the verbatim
source id string. -/
theorem claim1_row_validation (hdr row : List String) (hlen : row.length = hdr.length) :
    validateRow hdr row = rowOfExcept (specValidateRow hdr row) ∧ recMatchesRow hdr row := by
  have hs := validateRow_eq_spec hdr row hlen
  refine ⟨hs, ?_⟩
  cases hsp : specValidateRow hdr row with
  | error e =>
    rw [hsp] at hs
    simp only [recMatchesRow, hs, rowOfExcept]
  | ok r =>
    rw [hsp] at hs
    have hbuild : r = buildRecord hdr row ∧ firstFail (specChecks hdr row) = none := by
      cases hff : firstFail (specChecks hdr row) with
      | some e => rw [specValidateRow, hff] at hsp; cases hsp
      | none =>
        rw [specValidateRow, hff] at hsp
        injection hsp with h1
        exact ⟨h1.symm, rfl⟩
    obtain ⟨hr, hff⟩ := hbuild
    have hcp : checkIdParse hdr row = none :=
      firstFail_none _ hff _ (by simp [specChecks])
    cases hai : atoi (fieldAt hdr row ID) with
    | none => rw [checkIdParse, hai] at hcp; cases hcp
    | some m =>
      simp only [recMatchesRow, hs, rowOfExcept]
      subst hr
      simp [buildRecord, hai]

/-- Witness for C1 at a concrete fully valid row. -/
theorem claim1_witness :
    (mkRow ("12345678")).length = stdHeader.length ∧
    (validateRow stdHeader (mkRow ("12345678")) =
        rowOfExcept (specValidateRow stdHeader (mkRow ("12345678"))) ∧
      recMatchesRow stdHeader (mkRow ("12345678"))) :=
  ⟨by decide, claim1_row_validation stdHeader (mkRow ("12345678")) (by decide)⟩

/-- Counterexample to claim C2: a header-only `.csv` file is written as
the JSON value `null`, not as an empty JSON array — `processFile`'s
`records` slice is still nil and `json.MarshalIndent` encodes a nil
slice as `null`. -/
theorem claim2_counterexample :
    (runProcessFile envOk ("people.csv") [RawLine.fields stdHeader]).1.jsonWritten =
      some ("people.json", "null") ∧ ("null" : String) ≠ "[]" := by
  refine ⟨by decide, by decide⟩

/-- Claim C2 amended: for every input file whose data rows all fail
validation, and for every header-only file, the JSON output file is
still written (not absent), but its content is the JSON value `null`
(Go's encoding of the still-nil record slice), not an empty JSON
array. -/
theorem claim2_amended (env : Env) (path : String) (lines : List RawLine)
    (errs : List (Nat × VErr))
    (hcsv : goToLower (goExt path) = ".csv")
    (hopen : env.openRes = none) (hwrite : env.writeJsonRes = none)
    (hrun : processLines lines = .ok [] errs) :
    (runProcessFile env path lines).1.jsonWritten = some (jsonName path, "null") := by
  simp only [runProcessFile, hcsv, if_true, hopen, hrun, hwrite]
  cases errReport errs with
  | none =>
    cases env.removeRes with
    | none => simp [marshalRecords]
    | some m => simp [marshalRecords]
  | some tbl =>
    cases env.openErrRes with
    | some m => simp [marshalRecords]
    | none =>
      cases env.writeErrRes with
      | some m => simp [marshalRecords]
      | none =>
        cases env.removeRes with
        | none => simp [marshalRecords]
        | some m => simp [marshalRecords]

/-- Witness for the amended C2 at a concrete header-only file. -/
theorem claim2_witness :
    goToLower (goExt ("empty.csv")) = ".csv" ∧ envOk.openRes = none ∧
    envOk.writeJsonRes = none ∧
    processLines [RawLine.fields stdHeader] = .ok [] [] ∧
    (runProcessFile envOk ("empty.csv") [RawLine.fields stdHeader]).1.jsonWritten =
      some (jsonName ("empty.csv"), "null") :=
  ⟨by decide, rfl, rfl, by decide,
    claim2_amended envOk ("empty.csv") [RawLine.fields stdHeader] [] (by decide) rfl rfl
      (by decide)⟩

/-- Claim C3: internal-id validation order is 8-character length check,
then integer parse, then sign check: `"12345678"` is accepted with
id 12345678; `"1234567"` fails the length check; `"-1234567"` is 8
characters, parses to the negative integer -1234567 and fails the sign
check; `"-0000001"` parses to -1 and yields the negative-id error;
`"+1234567"` parses positively to 1234567 and is accepted. -/
theorem claim3_id_examples :
    validateRow stdHeader (mkRow ("12345678")) =
      .ok ⟨12345678, ⟨"Jane", "Q", "Doe"⟩, "555-123-4567"⟩ ∧
    validateRow stdHeader (mkRow ("1234567")) = .err (.idLen ("1234567")) ∧
    atoi ("-1234567") = some (-1234567) ∧
    validateRow stdHeader (mkRow ("-1234567")) = .err (.idNeg (-1234567)) ∧
    atoi ("-0000001") = some (-1) ∧
    validateRow stdHeader (mkRow ("-0000001")) = .err (.idNeg (-1)) ∧
    atoi ("+1234567") = some (1234567) ∧
    validateRow stdHeader (mkRow ("+1234567")) =
      .ok ⟨1234567, ⟨"Jane", "Q", "Doe"⟩, "555-123-4567"⟩ := by
  refine ⟨?_, ?_, ?_, ?_, ?_, ?_, ?_, ?_⟩ <;> decide

/-- Counterexample to claim C4: with the duplicate-name header
`A,A`, a data row of two fields has exactly the header row's field
count, yet the code yields the count error `number of fields: 2 does
not match header: 1` — the check compares against the header MAP's
size (distinct names), not the header row's field count. -/
theorem claim4_counterexample :
    (["x", "y"] : List String).length = (["A", "A"] : List String).length ∧
    processLines [RawLine.fields ["A", "A"], RawLine.fields ["x", "y"]] =
      .ok [] [(2, .fieldCount 2 1)] := by
  refine ⟨by decide, by decide⟩

/-- Claim C4 amended: the first validation check compares the row's
field count to the Header Map's size — the number of DISTINCT column
names of the header row (which equals the header row's field count
only when the header has no duplicate names) — and on mismatch yields
the count error, regardless of the header's contents. -/
theorem claim4_amended (hdr row : List String) (h : row.length ≠ hdrSize hdr) :
    validateRow hdr row = .err (.fieldCount row.length (hdrSize hdr)) := by
  simp [validateRow, h]

/-- Witness for the amended C4 at a concrete short row. -/
theorem claim4_witness :
    (["a"] : List String).length ≠ hdrSize stdHeader ∧
    validateRow stdHeader ["a"] =
      .err (.fieldCount (["a"] : List String).length (hdrSize stdHeader)) :=
  ⟨by decide, claim4_amended stdHeader ["a"] (by decide)⟩

/-- Counterexample to claim C5: when opening the error report fails
(and the file had a failing row), `processFile` calls `logrus.Fatal()`
— the process exits.  The failure is neither surfaced to the caller as
a file-level error nor non-fatal, contradicting the claim. -/
theorem claim5_counterexample :
    (runProcessFile ⟨none, none, some ("permission denied"), none, none⟩ ("people.csv")
        [RawLine.fields stdHeader, RawLine.fields (mkRow ("123"))]).2 = FOutcome.fatal := by
  decide

/-- Claim C5 amended: see `fileLevelOutcomes`. -/
theorem claim5_amended : ∀ env path lines, fileLevelOutcomes env path lines := by
  intro env path lines hcsv hopen
  obtain ⟨recs, errs, heq, _, _, _⟩ := processLines_spec lines
  refine ⟨?_, ?_, ?_⟩
  · intro m hm
    simp [runProcessFile, hcsv, hopen, heq, hm]
  · intro m h1 h2 h3 h4
    simp only [runProcessFile, hcsv, if_true, hopen, heq, h1, h2, h3, h4]
    cases hrep : errReport errs <;> simp
  · intro recs2 errs2 heq2 hne hwj hdisj
    rw [heq] at heq2
    injection heq2 with h1 h2
    subst h1
    subst h2
    have hrep : ∃ tbl, errReport errs = some tbl := by
      cases errs with
      | nil => exact absurd rfl hne
      | cons a t => exact ⟨_, rfl⟩
    obtain ⟨tbl, hrep⟩ := hrep
    rcases hdisj with hd | hd
    · cases hoe : env.openErrRes with
      | none => exact absurd hoe hd
      | some m => simp [runProcessFile, hcsv, hopen, heq, hwj, hrep, hoe]
    · cases hwe : env.writeErrRes with
      | none => exact absurd hwe hd
      | some m =>
        cases hoe : env.openErrRes with
        | none => simp [runProcessFile, hcsv, hopen, heq, hwj, hrep, hoe, hwe]
        | some m2 => simp [runProcessFile, hcsv, hopen, heq, hwj, hrep, hoe]

/-- Claim C6: every Row Error carries a 1-based line number counting
every line read including the header line (so the first data row is
line 2), and the error report is written only when at least one row
error accumulated, as the `LINE_NUM,ERROR_MSG` header followed by the
errors in insertion order. -/
theorem claim6_line_numbers (lines : List RawLine) (recs : List Record)
    (errs : List (Nat × VErr)) (h : processLines lines = .ok recs errs) :
    errsWellFormed lines errs := by
  obtain ⟨hbnd, hpw, hcnt⟩ := processLines_ok_inv lines recs errs h
  refine ⟨hpw, hbnd, ?_, rfl⟩
  rintro ⟨fs, rest, rfl⟩ p hp
  have hstep : processLines (RawLine.fields fs :: rest) =
      processGo 2 fs.length (some fs) [] [] rest := by
    simp [processLines, processGo]
  rw [hstep] at h
  obtain ⟨nr, ne, heq, hbnd2, _, _⟩ :=
    processGo_spec rest 2 fs.length (some fs) [] []
      (by intro h0 hh hne2; cases hh; rfl)
  rw [h] at heq
  injection heq with h1 h2
  rw [h2] at hp
  simp only [List.nil_append] at hp
  exact (hbnd2 p hp).1

/-- Witness for C6 at a file whose second line is malformed (the
reader built no partial field there). -/
theorem claim6_witness :
    processLines [RawLine.fields stdHeader, RawLine.bad ("parse error") 0] =
      .ok [] [(2, VErr.readErr ("parse error"))] ∧
    errsWellFormed [RawLine.fields stdHeader, RawLine.bad ("parse error") 0]
      [(2, VErr.readErr ("parse error"))] :=
  ⟨by decide,
    claim6_line_numbers [RawLine.fields stdHeader, RawLine.bad ("parse error") 0] []
      [(2, VErr.readErr ("parse error"))] (by decide)⟩

/-- Claim C7: processing never performs an out-of-range row access —
for every input, including files whose header row contains duplicate
column names, the read loop completes normally (the Go panic modelled
by `ProcResult.oob` is unreachable): every index the header map yields
for a field access is strictly below the accessed row's length. -/
theorem claim7_no_oob (lines : List RawLine) :
    ∀ n, processLines lines ≠ ProcResult.oob n := by
  obtain ⟨recs, errs, heq, _, _, _⟩ := processLines_spec lines
  intro n h
  rw [heq] at h
  cases h

/-- Claim C8: a file whose extension, compared case-insensitively, is
not `.csv` produces no JSON output, no error report, is not deleted,
and `processFile` returns success. -/
theorem claim8_non_csv (env : Env) (path : String) (lines : List RawLine)
    (h : goToLower (goExt path) ≠ ".csv") :
    runProcessFile env path lines = (noEffects, FOutcome.ok) := by
  simp [runProcessFile, h]

/-- Witness for C8 at a concrete `.txt` file. -/
theorem claim8_witness :
    goToLower (goExt ("notes.txt")) ≠ ".csv" ∧
    runProcessFile envOk ("notes.txt") [RawLine.fields stdHeader] =
      (noEffects, FOutcome.ok) :=
  ⟨by decide, claim8_non_csv envOk ("notes.txt") [RawLine.fields stdHeader] (by decide)⟩

/-- Claim C9: processing is deterministic in the inputs — `processFile`
never iterates a Go map (the header map is only read pointwise), so the
embedding is a pure function of the I/O outcomes, the path, and the
parsed content, and identical inputs give byte-identical outputs,
including the JSON bytes. -/
theorem claim9_deterministic (env1 env2 : Env) (path1 path2 : String)
    (lines1 lines2 : List RawLine) (henv : env1 = env2) (hpath : path1 = path2)
    (hlines : lines1 = lines2) :
    runProcessFile env1 path1 lines1 = runProcessFile env2 path2 lines2 := by
  subst henv
  subst hpath
  subst hlines
  rfl

/-- Witness for C9 at concrete identical runs. -/
theorem claim9_witness :
    (envOk = envOk) ∧ (("a.csv" : String) = "a.csv") ∧
    ([RawLine.fields stdHeader] = [RawLine.fields stdHeader]) ∧
    runProcessFile envOk ("a.csv") [RawLine.fields stdHeader] =
      runProcessFile envOk ("a.csv") [RawLine.fields stdHeader] :=
  ⟨rfl, rfl, rfl,
    claim9_deterministic envOk envOk ("a.csv") ("a.csv") [RawLine.fields stdHeader]
      [RawLine.fields stdHeader] rfl rfl rfl⟩

/-- Counterexample to claim C10: a structurally malformed first line
(here one whose errored read built no partial field, e.g. a bare quote
failing in the first field, so the reader's expected count stays
unset) contributes an error although it is read BEFORE the header line
— the header becomes line 2 — so records + errors = 1 while zero
lines were read after the header. -/
theorem claim10_counterexample :
    processLines [RawLine.bad ("bad line") 0, RawLine.fields stdHeader] =
      .ok [] [(1, VErr.readErr ("bad line"))] ∧
    linesAfterHeader [RawLine.bad ("bad line") 0, RawLine.fields stdHeader] = 0 ∧
    ([] : List Record).length + [(1, VErr.readErr ("bad line"))].length ≠
      linesAfterHeader [RawLine.bad ("bad line") 0, RawLine.fields stdHeader] := by
  refine ⟨by decide, by decide, by decide⟩

/-- Claim C10 amended: every line read other than the one consumed as
the header contributes exactly one appended Record or one appended
error entry — including structurally malformed lines and, once an
errored read's partial record has fixed the reader's expected field
count, well-formed lines rejected by that count which then cannot
become the header.  The header, when it exists, is the first
successfully parsed line whose field count matches the reader's
expected count (`headerPos`), so records + errors equals the number of
lines read minus one when such a line exists, and equals the number of
lines read when none does. -/
theorem claim10_amended (lines : List RawLine) (recs : List Record)
    (errs : List (Nat × VErr)) (h : processLines lines = .ok recs errs) :
    recs.length + errs.length +
      (if (headerPos lines).isSome = true then 1 else 0) = lines.length :=
  (processLines_ok_inv lines recs errs h).2.2

/-- Witness for the amended C10 at a two-line file. -/
theorem claim10_witness :
    processLines [RawLine.fields stdHeader, RawLine.fields (mkRow ("12345678"))] =
      .ok [⟨12345678, ⟨"Jane", "Q", "Doe"⟩, "555-123-4567"⟩] [] ∧
    ([⟨12345678, ⟨"Jane", "Q", "Doe"⟩, "555-123-4567"⟩] : List Record).length +
      ([] : List (Nat × VErr)).length +
      (if (headerPos [RawLine.fields stdHeader,
            RawLine.fields (mkRow ("12345678"))]).isSome = true then 1 else 0) =
      [RawLine.fields stdHeader, RawLine.fields (mkRow ("12345678"))].length :=
  ⟨by decide, claim10_amended _ _ _ (by decide)⟩

end ApiExam
